import Mathlib

/-!
Verification development for the `standardcharts` chart engine
(`standardcharts/charts.py`): a shallow embedding of the chart computation
and rendering code, together with theorems settling the specification
claims about it.

Modelling conventions:
* Machine floats are idealized as exact rationals, as the specification
  itself does.  numpy scalar arithmetic (which yields nan / infinities on
  division by zero instead of raising) is modelled by the type `NpQ`;
  Python float division (which raises `ZeroDivisionError` on a zero
  divisor) and Python `int()` (which raises on nan / infinity) are
  modelled by `pyDiv` and `pyInt` returning `Except`.
* Each entry the Python code appends to its `svg_parts` list is modelled
  by one `SvgElem` value carrying the parameters the code computes for it.
  Where the code computes cos/sin of an angle (doughnut arcs and labels,
  hexagon vertices), the element stores the exact defining data instead:
  angles as rational coefficients of pi, and hexbin y-coordinates as
  rational coefficients of sqrt 3.
* pandas `groupby` sorts its keys ascending (its default `sort=True`) and
  keeps the original row order inside every group; Python dicts preserve
  insertion order.  Both behaviours are modelled exactly.
-/

deriving instance DecidableEq for Except

attribute [local semireducible] Rat.add Rat.mul Rat.sub Rat.inv Rat.ofScientific

namespace StandardCharts

/-- Errors of the Python runtime that the chart code can raise. -/
inductive PyErr where
  | zeroDivisionError
  | valueError
  | overflowError
deriving DecidableEq

/-- Numeric model for numpy float scalars: exact rationals extended with
nan and the two signed infinities. -/
inductive NpQ where
  | fin (q : ℚ)
  | nan
  | inf
  | ninf
deriving DecidableEq

namespace NpQ

/-- Addition, with numpy float semantics on the non-finite values. -/
def add : NpQ → NpQ → NpQ
  | fin a, fin b => fin (a + b)
  | nan, _ => nan
  | _, nan => nan
  | inf, ninf => nan
  | ninf, inf => nan
  | inf, _ => inf
  | _, inf => inf
  | ninf, _ => ninf
  | _, ninf => ninf

/-- Negation. -/
def neg : NpQ → NpQ
  | fin a => fin (-a)
  | nan => nan
  | inf => ninf
  | ninf => inf

/-- Subtraction. -/
def sub (a b : NpQ) : NpQ := add a (neg b)

/-- Multiplication, with numpy float semantics (0 times infinity is nan). -/
def mul : NpQ → NpQ → NpQ
  | fin a, fin b => fin (a * b)
  | nan, _ => nan
  | _, nan => nan
  | inf, inf => inf
  | inf, ninf => ninf
  | ninf, inf => ninf
  | ninf, ninf => inf
  | inf, fin b => if b = 0 then nan else if 0 < b then inf else ninf
  | fin a, inf => if a = 0 then nan else if 0 < a then inf else ninf
  | ninf, fin b => if b = 0 then nan else if 0 < b then ninf else inf
  | fin a, ninf => if a = 0 then nan else if 0 < a then ninf else inf

/-- Division with numpy scalar semantics: a zero divisor produces nan
(for a zero dividend) or a signed infinity, with a runtime warning but no
exception. -/
def div : NpQ → NpQ → NpQ
  | nan, _ => nan
  | _, nan => nan
  | fin a, fin b =>
      if b = 0 then (if a = 0 then nan else if 0 < a then inf else ninf)
      else fin (a / b)
  | fin _, inf => fin 0
  | fin _, ninf => fin 0
  | inf, fin b => if 0 ≤ b then inf else ninf
  | ninf, fin b => if 0 ≤ b then ninf else inf
  | inf, _ => nan
  | ninf, _ => nan

/-- Strict comparison as in IEEE floats: every comparison with nan is
false. -/
def ltb : NpQ → NpQ → Bool
  | fin a, fin b => decide (a < b)
  | nan, _ => false
  | _, nan => false
  | ninf, ninf => false
  | inf, inf => false
  | ninf, _ => true
  | _, inf => true
  | inf, _ => false
  | _, ninf => false

/-- Underlying rational of a finite value (0 on nan and infinities). -/
def toQ : NpQ → ℚ
  | fin q => q
  | _ => 0

end NpQ

/-- Floor of a rational, computed explicitly. -/
def ratFloor (q : ℚ) : ℤ := Int.ediv q.num (q.den : ℤ)

/-- Truncation of a rational toward zero, as Python `int()` does. -/
def ratTrunc (q : ℚ) : ℤ := Int.tdiv q.num (q.den : ℤ)

/-- Python float division: raises `ZeroDivisionError` when the divisor is
exactly zero, otherwise agrees with numpy division. -/
def pyDiv (a b : NpQ) : Except PyErr NpQ :=
  if b = NpQ.fin 0 then .error .zeroDivisionError else .ok (NpQ.div a b)

/-- Python `int()` on a float: truncates toward zero; nan raises
`ValueError`, infinities raise `OverflowError`. -/
def pyInt : NpQ → Except PyErr ℤ
  | .fin q => .ok (ratTrunc q)
  | .nan => .error .valueError
  | .inf => .error .overflowError
  | .ninf => .error .overflowError

/-- Rounding half to even, the rounding used by Python float formatting. -/
def roundHalfEven (q : ℚ) : ℤ :=
  let fl := ratFloor q
  let frac := q - fl
  if frac < 1 / 2 then fl
  else if 1 / 2 < frac then fl + 1
  else if fl % 2 = 0 then fl else fl + 1

/-- Rendering of a float with format `.0f`, idealized to exact rationals. -/
def fmt0 : NpQ → String
  | .fin q => toString (roundHalfEven q)
  | .nan => "nan"
  | .inf => "inf"
  | .ninf => "-inf"

/-- Rendering of a float with format `.1f`, idealized to exact rationals. -/
def fmt1 : NpQ → String
  | .fin q =>
      let n := roundHalfEven (q * 10)
      let sign := if n < 0 then "-" else ""
      let m := n.natAbs
      sign ++ toString (m / 10) ++ "." ++ toString (m % 10)
  | .nan => "nan"
  | .inf => "inf"
  | .ninf => "-inf"

/-- pandas `Series.min` over a numeric column: nan on an empty series. -/
def listMinQ : List ℚ → NpQ
  | [] => .nan
  | x :: xs => .fin (xs.foldl min x)

/-- pandas `Series.max` over a numeric column: nan on an empty series. -/
def listMaxQ : List ℚ → NpQ
  | [] => .nan
  | x :: xs => .fin (xs.foldl max x)

/-- Maximum of a nonempty list of counts (0 on the unreachable empty case). -/
def listMaxNat : List ℕ → ℕ
  | [] => 0
  | x :: xs => xs.foldl max x

/-- ColorPalette.categorical_colors. -/
def categorical_colors : List String :=
  ["rgb(211, 89, 28)", "rgb(236, 186, 102)", "rgb(135, 175, 63)",
   "rgb(88, 191, 172)", "rgb(101, 150, 207)", "rgb(202, 127, 204)"]

/-- ColorPalette.histogram_color. -/
def histogram_color : String := "rgb(101,150,207)"

/-- ColorPalette ramp "Blues", also the fallback ramp. -/
def blues_ramp : List String :=
  ["rgb(9, 58, 81)", "rgb(32, 105, 138)", "rgb(101, 150, 207)",
   "rgb(182, 204, 230)", "rgb(217, 233, 252)"]

/-- ColorPalette.ramp_colors. -/
def ramp_colors : List (String × List String) :=
  [("Green-to-Blue",
    ["rgb(33, 89, 44)", "rgb(135, 175, 63)", "rgb(118, 163, 138)",
     "rgb(101, 150, 207)", "rgb(32, 105, 138)"]),
   ("Blues", blues_ramp),
   ("Greens",
    ["rgb(24, 60, 32)", "rgb(33, 89, 44)", "rgb(135, 175, 63)",
     "rgb(196, 215, 163)", "rgb(229, 243, 205)"])]

/-- ColorPalette.get_categorical_color: cyclic lookup by index. -/
def get_categorical_color (index : ℕ) : String :=
  categorical_colors.getD (index % categorical_colors.length) ""

/-- ColorPalette.get_ramp_colors: named ramp, falling back to "Blues". -/
def get_ramp_colors (ramp_name : String) : List String :=
  match ramp_colors.find? (fun kv => kv.1 == ramp_name) with
  | some kv => kv.2
  | none => blues_ramp

/-- Drawing primitives: one constructor per entry the Python code appends
to `svg_parts`.  `header` carries the outer width and height it
interpolates; `arc` and `textPolar` carry the doughnut wedge data (angles
as rational coefficients of pi); `hexPolygon` carries vertex coordinates
whose second component is the coefficient of sqrt 3. -/
inductive SvgElem where
  | header (width height : ℚ)
  | rect (x y w h : NpQ) (fill : String)
  | text (x y : NpQ) (anchor content : String)
  | line (x1 y1 x2 y2 : NpQ) (cls : String)
  | polyline (points : List (NpQ × NpQ)) (stroke : String)
  | hexPolygon (points : List (ℚ × ℚ)) (fill : String)
  | arc (radius innerRadius : ℚ) (startCoeff sweepCoeff : NpQ) (largeArc : Bool) (fill : String)
  | textPolar (labelRadius : ℚ) (angleCoeff : NpQ) (content : String)
  | footer
deriving DecidableEq

/-- Effectful map over a list in the `Except` monad, written as plain
recursion so that the Python for-loops it models unfold definitionally. -/
def exMapM (f : α → Except ε β) : List α → Except ε (List β)
  | [] => .ok []
  | a :: as =>
    match f a with
    | .error e => .error e
    | .ok b =>
      match exMapM f as with
      | .error e => .error e
      | .ok bs => .ok (b :: bs)

/-- Boolean success test for `Except`. -/
def exOk : Except ε α → Bool
  | .ok _ => true
  | .error _ => false

/-- Python `enumerate`, starting at a given index. -/
def pyEnum : ℕ → List α → List (ℕ × α)
  | _, [] => []
  | i, a :: as => (i, a) :: pyEnum (i + 1) as

/-- Strict ordering on characters by Unicode code point, as Python
compares them. -/
def charLtb (c d : Char) : Bool := decide (c.toNat < d.toNat)

/-- Lexicographic strict ordering on character lists by code point. -/
def lexLtb : List Char → List Char → Bool
  | [], [] => false
  | [], _ :: _ => true
  | _ :: _, [] => false
  | c :: cs, d :: ds =>
    if charLtb c d then true
    else if charLtb d c then false
    else lexLtb cs ds

/-- Python string comparison: lexicographic by Unicode code point (the
order pandas groupby sorts string keys by). -/
def strLtb (a b : String) : Bool := lexLtb a.data b.data

/-- Insertion of a key into a sorted duplicate-free list of keys. -/
def insertKey (x : String) : List String → List String
  | [] => [x]
  | y :: ys =>
    if x = y then y :: ys
    else if strLtb x y then x :: y :: ys
    else y :: insertKey x ys

/-- Sorted distinct keys of a column, ascending: the group index produced
by pandas `groupby` with its default `sort=True`. -/
def sortedKeys : List String → List String
  | [] => []
  | k :: ks => insertKey k (sortedKeys ks)

/-- pandas `DataFrame.groupby` on a string key column: groups are listed
in ascending key order and each group keeps the original row order. -/
def groupBy (key : ρ → String) (rows : List ρ) : List (String × List ρ) :=
  (sortedKeys (rows.map key)).map (fun k => (k, rows.filter (fun r => key r == k)))

/-- BarChart._validate_data: the column-count check.  The positional
renaming of the columns is captured by the typed row structures below. -/
def barChartValidate (ncols : ℕ) : Except String Unit :=
  if ncols < 2 then
    .error ("BarChart requires at least 2 columns, got " ++ toString ncols)
  else .ok ()

/-- Histogram._validate_data: the column-count check. -/
def histogramValidate (ncols : ℕ) : Except String Unit :=
  if ncols < 2 then
    .error ("Histogram requires at least 2 columns, got " ++ toString ncols)
  else .ok ()

/-- LineChart._validate_data: the column-count check. -/
def lineChartValidate (ncols : ℕ) : Except String Unit :=
  if ncols < 3 then
    .error ("LineChart requires at least 3 columns, got " ++ toString ncols)
  else .ok ()

/-- DoughnutChart._validate_data: the column-count check. -/
def doughnutChartValidate (ncols : ℕ) : Except String Unit :=
  if ncols < 2 then
    .error ("DoughnutChart requires at least 2 columns, got " ++ toString ncols)
  else .ok ()

/-- HexbinChart._validate_data: the column-count check. -/
def hexbinChartValidate (ncols : ℕ) : Except String Unit :=
  if ncols < 3 then
    .error ("HexbinChart requires at least 3 columns, got " ++ toString ncols)
  else .ok ()

/-- One row of hexbin input after positional column assignment. -/
structure HexRow where
  id : String
  independent : ℚ
  dependent : ℚ
deriving DecidableEq

/-- Truncation toward zero of `q * sqrt 3`, computed exactly: for
nonnegative q the integer part of `sqrt (3 q ^ 2)` is `Nat.sqrt` of its
floor. -/
def truncMulSqrt3 (q : ℚ) : ℤ :=
  if 0 ≤ q then (Nat.sqrt (ratFloor (3 * q * q)).toNat : ℤ)
  else -(Nat.sqrt (ratFloor (3 * q * q)).toNat : ℤ)

/-- Hexbin cell assignment for one row: normalize each coordinate by numpy
division (nan or infinity on a zero range), scale by the grid size, then
apply Python `int()`, which raises on nan or infinity. -/
def hexCellOf (xmin xrange ymin yrange : NpQ) (hexCols hexRows : ℤ) (p : ℚ × ℚ) :
    Except PyErr (ℤ × ℤ) :=
  let xnorm := NpQ.div (NpQ.sub (.fin p.1) xmin) xrange
  let ynorm := NpQ.div (NpQ.sub (.fin p.2) ymin) yrange
  match pyInt (NpQ.mul xnorm (.fin (hexCols : ℚ))) with
  | .error e => .error e
  | .ok col =>
    match pyInt (NpQ.mul ynorm (.fin (hexRows : ℚ))) with
    | .error e => .error e
    | .ok rowIdx => .ok (col, rowIdx)

/-- Python dict counting (`hex_counts[key] = hex_counts.get(key, 0) + 1`):
an association list in insertion order, as Python dicts preserve it. -/
def bumpCell : List ((ℤ × ℤ) × ℕ) → (ℤ × ℤ) → List ((ℤ × ℤ) × ℕ)
  | [], k => [(k, 1)]
  | (k', c) :: rest, k =>
    if k' = k then (k', c + 1) :: rest else (k', c) :: bumpCell rest k

/-- Vertices of the hexagon centred at (x, ycoeff * sqrt 3): the code uses
cos and sin of `i * pi / 3`, whose values are `{1, 1/2, -1/2, -1}` and
`{0, sqrt 3 / 2, -(sqrt 3 / 2)}`, so x-parts are rational and y-parts are
rational multiples of sqrt 3 (stored as the coefficient). -/
def hexVertices (x ycoeff hexSize : ℚ) : List (ℚ × ℚ) :=
  [(x + hexSize, ycoeff),
   (x + hexSize / 2, ycoeff + hexSize / 2),
   (x - hexSize / 2, ycoeff + hexSize / 2),
   (x - hexSize, ycoeff),
   (x - hexSize / 2, ycoeff - hexSize / 2),
   (x + hexSize / 2, ycoeff - hexSize / 2)]

/-- One hexagon element: position from the cell indices (odd columns are
shifted down by half a hex height, hence `+ hexSize / 2` on the sqrt 3
coefficient), color from the count ramp. -/
def hexCellPart (hexSize : ℚ) (colors : List String) (maxCount : ℕ)
    (cell : (ℤ × ℤ) × ℕ) : SvgElem :=
  let x : ℚ := (cell.1.1 : ℚ) * hexSize * (3 / 2)
  let ycoeff : ℚ :=
    (cell.1.2 : ℚ) * hexSize + (if Int.emod cell.1.1 2 = 1 then hexSize / 2 else 0)
  let colorIdx : ℤ :=
    min (ratTrunc ((cell.2 : ℚ) / (maxCount : ℚ) * ((colors.length : ℚ) - 1)))
      ((colors.length : ℤ) - 1)
  SvgElem.hexPolygon (hexVertices x ycoeff hexSize) (colors.getD colorIdx.toNat "")

/-- Hexbin axis lines. -/
def hexAxes (cw ch : ℚ) : List SvgElem :=
  [SvgElem.line (.fin 0) (.fin ch) (.fin cw) (.fin ch) "axis-line",
   SvgElem.line (.fin 0) (.fin 0) (.fin 0) (.fin ch) "axis-line"]

/-- Hexbin axis labels for one index i of the label loop. -/
def hexLabel (cw ch : ℚ) (xmin xrange ymin yrange : NpQ) (i : ℕ) : List SvgElem :=
  let xval := NpQ.add xmin (NpQ.mul (NpQ.div xrange (.fin 4)) (.fin (i : ℚ)))
  let xpos : ℚ := ((i : ℚ) / 4) * cw
  let yval := NpQ.add ymin (NpQ.mul (NpQ.div yrange (.fin 4)) (.fin (i : ℚ)))
  let ypos : ℚ := ch - ((i : ℚ) / 4) * ch
  [SvgElem.text (.fin xpos) (.fin (ch + 20)) "middle" (fmt1 xval),
   SvgElem.text (.fin (-10)) (.fin (ypos + 4)) "end" (fmt1 yval)]

/-- HexbinChart.generate as a function of the (independent, dependent)
pairs only; the code reads no other field of the rows. -/
def hexbinCore (w h : ℚ) (pts : List (ℚ × ℚ)) : Except PyErr (List SvgElem) :=
  let cw := w - 80
  let ch := h - 60
  let xmin := listMinQ (pts.map (·.1))
  let xmax := listMaxQ (pts.map (·.1))
  let ymin := listMinQ (pts.map (·.2))
  let ymax := listMaxQ (pts.map (·.2))
  let xrange := NpQ.sub xmax xmin
  let yrange := NpQ.sub ymax ymin
  let hexSize : ℚ := 20
  let hexCols : ℤ := ratTrunc (cw / (hexSize * (3 / 2))) + 1
  let hexRows : ℤ := truncMulSqrt3 (ch / (hexSize * 3)) + 1
  match exMapM (hexCellOf xmin xrange ymin yrange hexCols hexRows) pts with
  | .error e => .error e
  | .ok cells =>
    let hexCounts := cells.foldl bumpCell []
    if hexCounts = [] then .ok [SvgElem.header w h, SvgElem.footer]
    else
      let maxCount := listMaxNat (hexCounts.map (·.2))
      let colors := get_ramp_colors "Blues"
      .ok (SvgElem.header w h :: hexCounts.map (hexCellPart hexSize colors maxCount)
            ++ hexAxes cw ch
            ++ ((List.range 5).map (hexLabel cw ch xmin xrange ymin yrange)).flatten
            ++ [SvgElem.footer])

/-- HexbinChart.generate on typed rows. -/
def hexbinGenerate (w h : ℚ) (rows : List HexRow) : Except PyErr (List SvgElem) :=
  hexbinCore w h (rows.map (fun r => (r.independent, r.dependent)))

/-- One row of stacked-bar input after positional column assignment:
column 0 is the category, the remaining columns are the value columns. -/
structure BarRow where
  category : String
  values : List ℚ
deriving DecidableEq

/-- Geometry fields of a chart object (BaseChart.__init__): fixed margins
top 20, right 20, bottom 40, left 60. -/
structure BarState where
  width : ℚ
  height : ℚ
  chart_width : ℚ
  chart_height : ℚ
deriving DecidableEq

/-- BaseChart.__init__ for a given outer width and height. -/
def mkBarState (width height : ℚ) : BarState :=
  { width := width, height := height,
    chart_width := width - 60 - 20, chart_height := height - 20 - 40 }

/-- Componentwise sum of value vectors (pandas column-wise sum). -/
def vecAdd : List ℚ → List ℚ → List ℚ
  | [], ys => ys
  | xs, [] => xs
  | x :: xs, y :: ys => (x + y) :: vecAdd xs ys

/-- Per-column sums of one group: groupby('category')[value_columns].sum().
Every DataFrame row carries the same number of value columns. -/
def groupSums (g : List BarRow) : List ℚ :=
  g.foldl (fun acc r => vecAdd acc r.values) []

/-- Inner loop of BarChart.generate over the value columns, stacking
upward from current_y: a rect is emitted only when the segment height is
strictly positive. -/
def barSegRects (sums : List ℚ) (yScale : NpQ) (x barWidth : ℚ) :
    NpQ → List ℕ → List SvgElem
  | _, [] => []
  | curY, j :: js =>
    let segH := NpQ.mul (.fin (sums.getD j 0)) yScale
    if NpQ.ltb (.fin 0) segH then
      SvgElem.rect (.fin (x + barWidth * (1 / 10))) (NpQ.sub curY segH)
          (.fin (barWidth * (8 / 10))) segH (get_categorical_color j) ::
        barSegRects sums yScale x barWidth (NpQ.sub curY segH) js
    else barSegRects sums yScale x barWidth curY js

/-- Body of one iteration of the category loop of BarChart.generate: the
stacked rects followed by the category axis label. -/
def barCatParts (numValueCols : ℕ) (yScale : NpQ) (barWidth chart_height : ℚ)
    (ig : ℕ × String × List ℚ) : List SvgElem :=
  let x := (ig.1 : ℚ) * barWidth
  barSegRects ig.2.2 yScale x barWidth (.fin chart_height) (List.range numValueCols)
    ++ [SvgElem.text (.fin (x + barWidth / 2)) (.fin (chart_height + 20)) "middle" ig.2.1]

/-- Y-axis label of BarChart.generate for index i, with a gridline when
i is positive. -/
def barYLabel (cw chart_height : ℚ) (maxTotal yScale : NpQ) (i : ℕ) : List SvgElem :=
  let yVal := NpQ.mul (NpQ.div maxTotal (.fin 4)) (.fin (i : ℚ))
  let yPos := if NpQ.ltb (.fin 0) maxTotal
    then NpQ.sub (.fin chart_height) (NpQ.mul yVal yScale) else .fin chart_height
  SvgElem.text (.fin (-10)) (NpQ.add yPos (.fin 4)) "end" (fmt0 yVal) ::
    (if 0 < i then [SvgElem.line (.fin 0) yPos (.fin cw) yPos "tick-line"] else [])

/-- Legend entries for one value column of BarChart.generate. -/
def barLegendPart (legendX : ℚ) (j : ℕ) : List SvgElem :=
  let rectY : ℚ := 20 + (j : ℚ) * 20
  [SvgElem.rect (.fin legendX) (.fin rectY) (.fin 12) (.fin 12) (get_categorical_color j),
   SvgElem.text (.fin (legendX + 18)) (.fin (rectY + 9)) "start" ("value_" ++ toString j)]

/-- BarChart.generate: subtracts the 120 px legend gutter from
chart_width, lays out the grouped stacked bars, and restores chart_width
before returning.  The returned state is the object state when control
leaves generate(); on the ZeroDivisionError raised by the bar-width
division for an empty category list, the mutated chart_width stays in
place. -/
def barGenerate (s : BarState) (numValueCols : ℕ) (rows : List BarRow) :
    BarState × Except PyErr (List SvgElem) :=
  let legend_width : ℚ := 120
  let original_chart_width := s.chart_width
  let s1 : BarState := { s with chart_width := original_chart_width - legend_width }
  let grouped := groupBy BarRow.category rows
  let sums := grouped.map (fun g => (g.1, groupSums g.2))
  let totals := sums.map (fun g => g.2.sum)
  let maxTotal := listMaxQ totals
  let categories := sums.map (·.1)
  if categories.length = 0 then
    (s1, .error .zeroDivisionError)
  else
    let barWidth : ℚ := s1.chart_width / (categories.length : ℚ)
    let yScale : NpQ :=
      if NpQ.ltb (.fin 0) maxTotal then NpQ.div (.fin s1.chart_height) maxTotal
      else .fin 1
    let body := (pyEnum 0 sums).map (barCatParts numValueCols yScale barWidth s1.chart_height)
    let axes :=
      [SvgElem.line (.fin 0) (.fin s1.chart_height) (.fin s1.chart_width)
         (.fin s1.chart_height) "axis-line",
       SvgElem.line (.fin 0) (.fin 0) (.fin 0) (.fin s1.chart_height) "axis-line"]
    let ylabels :=
      ((List.range 5).map (barYLabel s1.chart_width s1.chart_height maxTotal yScale)).flatten
    let legend := ((List.range numValueCols).map (barLegendPart (s1.chart_width + 20))).flatten
    ({ s1 with chart_width := original_chart_width },
     .ok (SvgElem.header s.width s.height :: body.flatten
            ++ axes ++ ylabels ++ legend ++ [SvgElem.footer]))

/-- One row of doughnut input after positional column assignment. -/
structure DoughnutRow where
  category : String
  value : ℚ
deriving DecidableEq

/-- Grouped value sums of DoughnutChart.generate:
groupby('category')['value'].sum(). -/
def doughnutGrouped (rows : List DoughnutRow) : List (String × ℚ) :=
  (groupBy DoughnutRow.category rows).map (fun g => (g.1, (g.2.map DoughnutRow.value).sum))

/-- Grand total of the grouped sums (grouped['value'].sum()). -/
def doughnutTotal (rows : List DoughnutRow) : ℚ :=
  ((doughnutGrouped rows).map (·.2)).sum

/-- Arc loop of DoughnutChart.generate: one annular arc and one label per
group, accumulating current_angle.  Angles are stored as rational
coefficients of pi; the wedge angle is (value / total) * 2 * pi with
numpy division, hence nan coefficients when the total is zero.  The
large_arc flag tests angle > pi, which on coefficients is coeff > 1
(false for nan, as in Python). -/
def doughnutArcs (total radius innerRadius : ℚ) :
    NpQ → ℕ → List (String × ℚ) → List SvgElem
  | _, _, [] => []
  | cur, i, (cat, v) :: rest =>
    let angleCoeff := NpQ.mul (NpQ.div (.fin v) (.fin total)) (.fin 2)
    SvgElem.arc radius innerRadius cur angleCoeff (NpQ.ltb (.fin 1) angleCoeff)
        (get_categorical_color i) ::
      SvgElem.textPolar (radius + 20) (NpQ.add cur (NpQ.div angleCoeff (.fin 2))) cat ::
        doughnutArcs total radius innerRadius (NpQ.add cur angleCoeff) (i + 1) rest

/-- DoughnutChart.generate.  The wedge centre (center_x, center_y) enters
only the cos/sin coordinate serialization and is determined by the radius
data carried on each arc element. -/
def doughnutGenerate (w h : ℚ) (rows : List DoughnutRow) : List SvgElem :=
  let cw := w - 80
  let ch := h - 60
  let grouped := doughnutGrouped rows
  let total := (grouped.map (·.2)).sum
  let radius := min cw ch / 2 * (8 / 10)
  SvgElem.header w h ::
    doughnutArcs total radius (radius * (1 / 2)) (.fin 0) 0 grouped ++ [SvgElem.footer]

/-- Contents of the plain text elements anchored "middle" (in the bar
chart these are exactly the category axis labels). -/
def middleTexts (parts : List SvgElem) : List String :=
  parts.filterMap (fun e =>
    match e with
    | SvgElem.text _ _ anchor content => if anchor = "middle" then some content else none
    | _ => none)

/-- Contents of the polar-placed doughnut labels, in emission order. -/
def polarLabels (parts : List SvgElem) : List String :=
  parts.filterMap (fun e =>
    match e with
    | SvgElem.textPolar _ _ content => some content
    | _ => none)

/-- Sweep-angle coefficients (in units of pi) of the arc elements. -/
def wedgeAngleCoeffs (parts : List SvgElem) : List NpQ :=
  parts.filterMap (fun e =>
    match e with
    | SvgElem.arc _ _ _ sweep _ _ => some sweep
    | _ => none)

/-- Point counts of the polyline elements. -/
def polylineSizes (parts : List SvgElem) : List ℕ :=
  parts.filterMap (fun e =>
    match e with
    | SvgElem.polyline pts _ => some pts.length
    | _ => none)

/-- Modelled from the spec: "first-seen category order", the order in
which each distinct category value first appears in the rows.  This is
the ordering the spec asserts for bars and wedges; it is compared against
the embedding of the code. -/
def firstSeenKeys : List String → List String
  | [] => []
  | k :: ks => k :: (firstSeenKeys ks).filter (fun x => x != k)

/-- One row of line-chart input after positional column assignment; the
time column holds the parsed timestamp as epoch seconds. -/
structure LineRow where
  id : String
  time : ℚ
  value : ℚ
deriving DecidableEq

/-- Insertion step of the stable ascending sort by time. -/
def insertByTime (r : LineRow) : List LineRow → List LineRow
  | [] => [r]
  | x :: xs => if r.time < x.time then r :: x :: xs else x :: insertByTime r xs

/-- Stable ascending sort by the time column:
group_data.sort_values('time'). -/
def sortByTime : List LineRow → List LineRow
  | [] => []
  | r :: rs => insertByTime r (sortByTime rs)

/-- Coordinates of one polyline point of LineChart.generate: the x ratio
divides Python floats (total_seconds values), raising ZeroDivisionError
on a zero time range; the y ratio divides numpy scalars, yielding nan on
a zero value range instead of raising. -/
def linePoint (cw ch : ℚ) (minT timeRange minV valueRange : NpQ) (r : LineRow) :
    Except PyErr (NpQ × NpQ) :=
  match pyDiv (NpQ.sub (.fin r.time) minT) timeRange with
  | .error e => .error e
  | .ok ratio =>
    .ok (NpQ.mul ratio (.fin cw),
         NpQ.sub (.fin ch)
           (NpQ.mul (NpQ.div (NpQ.sub (.fin r.value) minV) valueRange) (.fin ch)))

/-- One iteration of the group loop of LineChart.generate: the group's
points, sorted by time; a polyline is emitted only when the group has
more than one point. -/
def linePolyParts (cw ch : ℚ) (minT timeRange minV valueRange : NpQ)
    (ig : ℕ × String × List LineRow) : Except PyErr (List SvgElem) :=
  match exMapM (linePoint cw ch minT timeRange minV valueRange) (sortByTime ig.2.2) with
  | .error e => .error e
  | .ok pts =>
    .ok (if 1 < pts.length then [SvgElem.polyline pts (get_categorical_color ig.1)] else [])

/-- Y-axis label of LineChart.generate for index i; only the three
interior indices draw a gridline. -/
def lineYLabel (cw ch : ℚ) (minV valueRange : NpQ) (i : ℕ) : List SvgElem :=
  let yVal := NpQ.add minV (NpQ.mul (NpQ.div valueRange (.fin 4)) (.fin (i : ℚ)))
  let yPos := NpQ.sub (.fin ch)
    (NpQ.mul (NpQ.div (NpQ.sub yVal minV) valueRange) (.fin ch))
  SvgElem.text (.fin (-10)) (NpQ.add yPos (.fin 4)) "end" (fmt1 yVal) ::
    (if 0 < i ∧ i < 4 then [SvgElem.line (.fin 0) yPos (.fin cw) yPos "tick-line"] else [])

/-- Global time range of LineChart.generate: max minus min of the time
column, in seconds (a Python float in the source). -/
def lineTimeRange (rows : List LineRow) : NpQ :=
  NpQ.sub (listMaxQ (rows.map LineRow.time)) (listMinQ (rows.map LineRow.time))

/-- LineChart.generate. -/
def lineGenerate (w h : ℚ) (rows : List LineRow) : Except PyErr (List SvgElem) :=
  let cw := w - 80
  let ch := h - 60
  let groups := groupBy LineRow.id rows
  let minT := listMinQ (rows.map LineRow.time)
  let minV := listMinQ (rows.map LineRow.value)
  let valueRange := NpQ.sub (listMaxQ (rows.map LineRow.value)) minV
  match exMapM (linePolyParts cw ch minT (lineTimeRange rows) minV valueRange)
      (pyEnum 0 groups) with
  | .error e => .error e
  | .ok polys =>
    .ok (SvgElem.header w h :: polys.flatten
          ++ [SvgElem.line (.fin 0) (.fin ch) (.fin cw) (.fin ch) "axis-line",
              SvgElem.line (.fin 0) (.fin 0) (.fin 0) (.fin ch) "axis-line"]
          ++ ((List.range 5).map (lineYLabel cw ch minV valueRange)).flatten
          ++ [SvgElem.footer])

/-- Equally spaced candidate bin edges: np.linspace(a, b, n + 1). -/
def linEdges (a b : ℚ) (n : ℕ) : List ℚ :=
  (List.range (n + 1)).map (fun i : ℕ => a + (i : ℚ) * (b - a) / (n : ℚ))

/-- Bin edges produced by pd.cut(values, bins=n): linspace over
[min, max] with the first edge shifted down by 0.1% of the range, so the
minimum falls inside the first (left-open, right-closed) interval; a
degenerate min = max range is instead widened by 0.1% on both sides. -/
def pdCutEdges (mn mx : ℚ) (n : ℕ) : List ℚ :=
  if mn = mx then
    linEdges (if mn = 0 then mn - 1 / 1000 else mn - |mn| / 1000)
      (if mx = 0 then mx + 1 / 1000 else mx + |mx| / 1000) n
  else
    match linEdges mn mx n with
    | [] => []
    | e0 :: rest => (e0 - (mx - mn) / 1000) :: rest

/-- Index of the interval (a, b] of consecutive edges containing v: the
right-closed searchsorted convention of pd.cut with its default
right=True; none when v lies outside every interval (pd.cut assigns NaN
there). -/
def intervalIndex (v : ℚ) : List ℚ → Option ℕ
  | a :: b :: rest =>
    if a < v ∧ v ≤ b then some 0 else (intervalIndex v (b :: rest)).map (· + 1)
  | _ => none

/-- Bin index assigned to v by pd.cut over [mn, mx] with n bins. -/
def pdCutBinIndex (mn mx : ℚ) (n : ℕ) (v : ℚ) : Option ℕ :=
  intervalIndex v (pdCutEdges mn mx n)

/-- Histogram bin counts, hist.value_counts().sort_index(): one count per
interval in interval order, empty bins included (value_counts over a
categorical reports unobserved categories). -/
def histBinCounts (values : List ℚ) (n : ℕ) : List ℕ :=
  match values with
  | [] => []
  | v0 :: vs =>
    (List.range n).map (fun i =>
      (values.filter
        (fun v => pdCutBinIndex (vs.foldl min v0) (vs.foldl max v0) n v == some i)).length)

/-- C3: every chart type rejects input whose column count is below its
minimum (BarChart, Histogram, DoughnutChart: 2; LineChart, HexbinChart: 3)
with a validation error, and accepts input with exactly the minimum
column count. -/
theorem claim_C3_min_columns :
    (∀ n : ℕ, n < 2 → exOk (barChartValidate n) = false) ∧
    exOk (barChartValidate 2) = true ∧
    (∀ n : ℕ, n < 2 → exOk (histogramValidate n) = false) ∧
    exOk (histogramValidate 2) = true ∧
    (∀ n : ℕ, n < 2 → exOk (doughnutChartValidate n) = false) ∧
    exOk (doughnutChartValidate 2) = true ∧
    (∀ n : ℕ, n < 3 → exOk (lineChartValidate n) = false) ∧
    exOk (lineChartValidate 3) = true ∧
    (∀ n : ℕ, n < 3 → exOk (hexbinChartValidate n) = false) ∧
    exOk (hexbinChartValidate 3) = true := by
  refine ⟨?_, by decide, ?_, by decide, ?_, by decide, ?_, by decide, ?_, by decide⟩
  · intro n hn
    unfold barChartValidate
    rw [if_pos hn]
    rfl
  · intro n hn
    unfold histogramValidate
    rw [if_pos hn]
    rfl
  · intro n hn
    unfold doughnutChartValidate
    rw [if_pos hn]
    rfl
  · intro n hn
    unfold lineChartValidate
    rw [if_pos hn]
    rfl
  · intro n hn
    unfold hexbinChartValidate
    rw [if_pos hn]
    rfl

/-- Witness for C3 at concrete column counts. -/
theorem claim_C3_min_columns_witness :
    exOk (barChartValidate 1) = false ∧
    exOk (histogramValidate 0) = false ∧
    exOk (doughnutChartValidate 1) = false ∧
    exOk (lineChartValidate 2) = false ∧
    exOk (hexbinChartValidate 2) = false :=
  ⟨claim_C3_min_columns.1 1 (by decide),
   claim_C3_min_columns.2.2.1 0 (by decide),
   claim_C3_min_columns.2.2.2.2.1 1 (by decide),
   claim_C3_min_columns.2.2.2.2.2.2.1 2 (by decide),
   claim_C3_min_columns.2.2.2.2.2.2.2.2.1 2 (by decide)⟩

/-- C8: hexbin cell assignment is a pure function of the (independent,
dependent) values, and generate() on rows with identical value pairs
produces identical outputs, run after run. -/
theorem claim_C8_hexbin_deterministic :
    (∀ (xmin xrange ymin yrange : NpQ) (hexCols hexRows : ℤ) (r1 r2 : HexRow),
      r1.independent = r2.independent → r1.dependent = r2.dependent →
      hexCellOf xmin xrange ymin yrange hexCols hexRows (r1.independent, r1.dependent) =
        hexCellOf xmin xrange ymin yrange hexCols hexRows (r2.independent, r2.dependent)) ∧
    ∀ (w h : ℚ) (rows1 rows2 : List HexRow),
      rows1.map (fun r => (r.independent, r.dependent)) =
        rows2.map (fun r => (r.independent, r.dependent)) →
      hexbinGenerate w h rows1 = hexbinGenerate w h rows2 := by
  constructor
  · intro xmin xrange ymin yrange hc hr r1 r2 hx hy
    rw [hx, hy]
  · intro w h r1 r2 hmap
    unfold hexbinGenerate
    rw [hmap]

/-- Witness for C8: the ids differ but the value pairs agree, so the
outputs agree. -/
theorem claim_C8_hexbin_deterministic_witness :
    hexbinGenerate 800 600 [⟨"a", 1, 2⟩] = hexbinGenerate 800 600 [⟨"b", 1, 2⟩] :=
  claim_C8_hexbin_deterministic.2 800 600 [⟨"a", 1, 2⟩] [⟨"b", 1, 2⟩] rfl

/-- C10: hexbin input with at least 3 columns passes validation, and with
zero rows generate() raises nothing and returns only the fixed header and
footer: no hexagon polygons, no axis lines, no axis labels. -/
theorem claim_C10_hexbin_empty :
    (∀ n : ℕ, 3 ≤ n → exOk (hexbinChartValidate n) = true) ∧
    ∀ w h : ℚ, hexbinGenerate w h [] = .ok [SvgElem.header w h, SvgElem.footer] := by
  constructor
  · intro n hn
    unfold hexbinChartValidate
    rw [if_neg (by omega)]
    rfl
  · intro w h
    rfl

/-- Witness for C10 at a concrete column count and canvas size. -/
theorem claim_C10_hexbin_empty_witness :
    exOk (hexbinChartValidate 3) = true ∧
    hexbinGenerate 800 600 [] = .ok [SvgElem.header 800 600, SvgElem.footer] :=
  ⟨claim_C10_hexbin_empty.1 3 (by decide), claim_C10_hexbin_empty.2 800 600⟩

theorem insertKey_ne_nil (x : String) (l : List String) : insertKey x l ≠ [] := by
  cases l with
  | nil => simp [insertKey]
  | cons y ys =>
    unfold insertKey
    split
    · simp
    · split <;> simp

theorem sortedKeys_ne_nil (k : String) (ks : List String) :
    sortedKeys (k :: ks) ≠ [] := by
  unfold sortedKeys
  exact insertKey_ne_nil _ _

theorem mem_insertKey {x a : String} {l : List String} :
    a ∈ insertKey x l ↔ a = x ∨ a ∈ l := by
  induction l with
  | nil => simp [insertKey]
  | cons y ys ih =>
    unfold insertKey
    by_cases hxy : x = y
    · subst hxy
      rw [if_pos rfl]
      simp only [List.mem_cons]
      tauto
    · rw [if_neg hxy]
      by_cases hlt : strLtb x y = true
      · rw [if_pos hlt]
        simp only [List.mem_cons]
      · rw [if_neg hlt]
        simp only [List.mem_cons, ih]
        tauto

theorem mem_sortedKeys {a : String} {l : List String} :
    a ∈ sortedKeys l ↔ a ∈ l := by
  induction l with
  | nil => simp [sortedKeys]
  | cons k ks ih => simp [sortedKeys, mem_insertKey, ih]

theorem groupBy_keys (key : ρ → String) (rows : List ρ) :
    (groupBy key rows).map Prod.fst = sortedKeys (rows.map key) := by
  unfold groupBy
  rw [List.map_map]
  exact List.map_id _

theorem groupBy_ne_nil (key : ρ → String) {rows : List ρ} (h : rows ≠ []) :
    groupBy key rows ≠ [] := by
  cases rows with
  | nil => exact absurd rfl h
  | cons r rest =>
    unfold groupBy
    intro hnil
    rw [List.map_eq_nil_iff] at hnil
    exact sortedKeys_ne_nil (key r) (rest.map key) (by simpa using hnil)

theorem groupBy_groups_ne_nil (key : ρ → String) (rows : List ρ) :
    ∀ g ∈ groupBy key rows, g.2 ≠ [] := by
  intro g hg
  unfold groupBy at hg
  rcases List.mem_map.1 hg with ⟨k, hk, rfl⟩
  rcases List.mem_map.1 (mem_sortedKeys.1 hk) with ⟨r, hr, rfl⟩
  dsimp only
  intro hnil
  have hmem : r ∈ rows.filter (fun r' => key r' == key r) := by
    rw [List.mem_filter]
    exact ⟨hr, by simp⟩
  rw [hnil] at hmem
  exact (List.not_mem_nil r) hmem

theorem middleTexts_append (l1 l2 : List SvgElem) :
    middleTexts (l1 ++ l2) = middleTexts l1 ++ middleTexts l2 := by
  simp [middleTexts]

theorem middleTexts_barSegRects (sums : List ℚ) (yScale : NpQ) (x bw : ℚ)
    (curY : NpQ) (js : List ℕ) :
    middleTexts (barSegRects sums yScale x bw curY js) = [] := by
  induction js generalizing curY with
  | nil => rfl
  | cons j js ih =>
    simp only [barSegRects]
    split
    · simpa [middleTexts] using ih _
    · exact ih _

theorem middleTexts_barCatParts (n : ℕ) (yScale : NpQ) (bw ch : ℚ)
    (ig : ℕ × String × List ℚ) :
    middleTexts (barCatParts n yScale bw ch ig) = [ig.2.1] := by
  simp only [barCatParts]
  rw [middleTexts_append, middleTexts_barSegRects]
  simp [middleTexts]

theorem middleTexts_barBody (n : ℕ) (yScale : NpQ) (bw ch : ℚ)
    (i : ℕ) (sums : List (String × List ℚ)) :
    middleTexts (((pyEnum i sums).map (barCatParts n yScale bw ch)).flatten) =
      sums.map Prod.fst := by
  induction sums generalizing i with
  | nil => rfl
  | cons g gs ih =>
    simp only [pyEnum, List.map_cons, List.flatten_cons, middleTexts_append]
    rw [ih, middleTexts_barCatParts]
    rfl

theorem middleTexts_barYLabels (cw ch : ℚ) (mt ys : NpQ) (l : List ℕ) :
    middleTexts ((l.map (barYLabel cw ch mt ys)).flatten) = [] := by
  induction l with
  | nil => rfl
  | cons i is ih =>
    simp only [List.map_cons, List.flatten_cons, middleTexts_append, ih]
    by_cases h0 : 0 < i <;> simp [barYLabel, middleTexts, h0]

theorem middleTexts_barLegend (lx : ℚ) (l : List ℕ) :
    middleTexts ((l.map (barLegendPart lx)).flatten) = [] := by
  induction l with
  | nil => rfl
  | cons j js ih =>
    simp only [List.map_cons, List.flatten_cons, middleTexts_append, ih]
    simp [barLegendPart, middleTexts]

theorem polarLabels_cons_arc (r ir : ℚ) (sc sw : NpQ) (la : Bool) (f : String)
    (l : List SvgElem) :
    polarLabels (SvgElem.arc r ir sc sw la f :: l) = polarLabels l := rfl

theorem polarLabels_cons_textPolar (lr : ℚ) (ac : NpQ) (c : String)
    (l : List SvgElem) :
    polarLabels (SvgElem.textPolar lr ac c :: l) = c :: polarLabels l := rfl

theorem polarLabels_doughnutArcs (total radius ir : ℚ) (cur : NpQ) (i : ℕ)
    (gs : List (String × ℚ)) :
    polarLabels (doughnutArcs total radius ir cur i gs) = gs.map Prod.fst := by
  induction gs generalizing cur i with
  | nil => rfl
  | cons g gs ih =>
    cases g with
    | mk cat v =>
      simp only [doughnutArcs, polarLabels_cons_arc, polarLabels_cons_textPolar]
      rw [ih]
      rfl

theorem wedgeAngleCoeffs_cons_arc (r ir : ℚ) (sc sw : NpQ) (la : Bool) (f : String)
    (l : List SvgElem) :
    wedgeAngleCoeffs (SvgElem.arc r ir sc sw la f :: l) = sw :: wedgeAngleCoeffs l := rfl

theorem wedgeAngleCoeffs_cons_textPolar (lr : ℚ) (ac : NpQ) (c : String)
    (l : List SvgElem) :
    wedgeAngleCoeffs (SvgElem.textPolar lr ac c :: l) = wedgeAngleCoeffs l := rfl

theorem wedgeAngleCoeffs_doughnutArcs (total radius ir : ℚ) (cur : NpQ) (i : ℕ)
    (gs : List (String × ℚ)) :
    wedgeAngleCoeffs (doughnutArcs total radius ir cur i gs) =
      gs.map (fun g => NpQ.mul (NpQ.div (.fin g.2) (.fin total)) (.fin 2)) := by
  induction gs generalizing cur i with
  | nil => rfl
  | cons g gs ih =>
    cases g with
    | mk cat v =>
      simp only [doughnutArcs, wedgeAngleCoeffs_cons_arc, wedgeAngleCoeffs_cons_textPolar]
      rw [ih]
      rfl

theorem polarLabels_append (l1 l2 : List SvgElem) :
    polarLabels (l1 ++ l2) = polarLabels l1 ++ polarLabels l2 := by
  simp [polarLabels]

theorem wedgeAngleCoeffs_append (l1 l2 : List SvgElem) :
    wedgeAngleCoeffs (l1 ++ l2) = wedgeAngleCoeffs l1 ++ wedgeAngleCoeffs l2 := by
  simp [wedgeAngleCoeffs]

theorem middleTexts_cons_header (w h : ℚ) (l : List SvgElem) :
    middleTexts (SvgElem.header w h :: l) = middleTexts l := rfl

theorem polarLabels_cons_header (w h : ℚ) (l : List SvgElem) :
    polarLabels (SvgElem.header w h :: l) = polarLabels l := rfl

theorem wedgeAngleCoeffs_cons_header (w h : ℚ) (l : List SvgElem) :
    wedgeAngleCoeffs (SvgElem.header w h :: l) = wedgeAngleCoeffs l := rfl

theorem middleTexts_footer : middleTexts [SvgElem.footer] = [] := rfl

theorem polarLabels_footer : polarLabels [SvgElem.footer] = [] := rfl

theorem wedgeAngleCoeffs_footer : wedgeAngleCoeffs [SvgElem.footer] = [] := rfl

theorem sum_map_div_mul (l : List (String × ℚ)) (c : ℚ) :
    (l.map (fun g => g.2 / c * 2)).sum = (l.map (fun g => g.2)).sum / c * 2 := by
  induction l with
  | nil => simp
  | cons g gs ih =>
    simp only [List.map_cons, List.sum_cons, ih]
    ring

/-- C1 counterexample: with category column ["B", "A"], pandas groupby
sorts its keys, so both the bar chart and the doughnut chart emit A
before B, while first-seen order is B then A: the claim fails as
stated. -/
theorem claim_C1_counterexample :
    Except.map middleTexts (barGenerate (mkBarState 800 600) 1
        [⟨"B", [1]⟩, ⟨"A", [2]⟩]).2 = .ok ["A", "B"] ∧
    polarLabels (doughnutGenerate 800 600 [⟨"B", 1⟩, ⟨"A", 2⟩]) = ["A", "B"] ∧
    firstSeenKeys ([⟨"B", [1]⟩, ⟨"A", [2]⟩].map BarRow.category) = ["B", "A"] ∧
    firstSeenKeys ([⟨"B", 1⟩, ⟨"A", 2⟩].map DoughnutRow.category) = ["B", "A"] ∧
    (["A", "B"] : List String) ≠ ["B", "A"] := by
  refine ⟨rfl, rfl, rfl, rfl, by decide⟩

/-- C1 amended: bars and wedges are emitted in ascending sorted order of
the category value (the pandas groupby default), not in first-seen
order: the bar chart's category axis labels and the doughnut's wedge
labels both list the distinct categories sorted ascending. -/
theorem claim_C1_group_order :
    (∀ (s : BarState) (n : ℕ) (rows : List BarRow), rows ≠ [] →
      Except.map middleTexts (barGenerate s n rows).2 =
        .ok (sortedKeys (rows.map BarRow.category))) ∧
    ∀ (w h : ℚ) (rows : List DoughnutRow),
      polarLabels (doughnutGenerate w h rows) =
        sortedKeys (rows.map DoughnutRow.category) := by
  constructor
  · intro s n rows hne
    have hlen : (((groupBy BarRow.category rows).map
        (fun g => (g.1, groupSums g.2))).map (·.1)).length ≠ 0 := by
      simp only [List.length_map, ne_eq, List.length_eq_zero]
      exact groupBy_ne_nil BarRow.category hne
    simp only [barGenerate]
    rw [if_neg hlen]
    simp only [Except.map]
    rw [middleTexts_append, middleTexts_append, middleTexts_append,
      middleTexts_append, middleTexts_cons_header, middleTexts_barBody,
      middleTexts_barYLabels, middleTexts_barLegend, middleTexts_footer]
    have hmap : (((groupBy BarRow.category rows).map
        (fun g => (g.1, groupSums g.2))).map Prod.fst) =
        (groupBy BarRow.category rows).map Prod.fst := by
      rw [List.map_map]
      exact List.map_congr_left (fun a _ => rfl)
    rw [hmap, groupBy_keys]
    simp [middleTexts]
  · intro w h rows
    simp only [doughnutGenerate]
    rw [polarLabels_append, polarLabels_cons_header, polarLabels_doughnutArcs,
      polarLabels_footer, List.append_nil]
    have hmap : (doughnutGrouped rows).map Prod.fst =
        (groupBy DoughnutRow.category rows).map Prod.fst := by
      unfold doughnutGrouped
      rw [List.map_map]
      exact List.map_congr_left (fun a _ => rfl)
    rw [hmap, groupBy_keys]

/-- Witness for the amended C1 on a concrete out-of-order dataset. -/
theorem claim_C1_group_order_witness :
    Except.map middleTexts (barGenerate (mkBarState 800 600) 1
        [⟨"b", [1]⟩, ⟨"a", [2]⟩]).2 =
      .ok (sortedKeys ([⟨"b", [1]⟩, ⟨"a", [2]⟩].map BarRow.category)) ∧
    polarLabels (doughnutGenerate 800 600 [⟨"b", 1⟩, ⟨"a", 2⟩]) =
      sortedKeys ([⟨"b", 1⟩, ⟨"a", 2⟩].map DoughnutRow.category) :=
  ⟨claim_C1_group_order.1 (mkBarState 800 600) 1 [⟨"b", [1]⟩, ⟨"a", [2]⟩] (by decide),
   claim_C1_group_order.2 800 600 [⟨"b", 1⟩, ⟨"a", 2⟩]⟩

/-- C5 counterexample: on the dataset with categories A:[10, 5] and
B:[0, 0] the generated output contains no rect of height 0 anywhere, so
category B does not render a 0-height rect as the claim states (its
zero-height segments are skipped by the `segment_height > 0` guard). -/
theorem claim_C5_counterexample :
    Except.map (fun parts => parts.filter (fun e =>
        match e with
        | SvgElem.rect _ _ _ hgt _ => hgt == NpQ.fin 0
        | _ => false))
      (barGenerate (mkBarState 800 600) 2 [⟨"A", [10, 5]⟩, ⟨"B", [0, 0]⟩]).2 =
      .ok [] := by
  rfl

/-- C5 amended: for the dataset {A:[10, 5], B:[0, 0]} the maximum summed
total is 15; category A renders two stack rects whose heights (360 and
180 at 800x600) sum to exactly the inner chart height; category B
renders no rect at all but still gets its axis label, and generate()
returns normally. -/
theorem claim_C5_stacked_bar_dataset :
    listMaxQ ((groupBy BarRow.category [⟨"A", [10, 5]⟩, ⟨"B", [0, 0]⟩]).map
        (fun g => (groupSums g.2).sum)) = .fin 15 ∧
    Except.map (List.take 5)
        (barGenerate (mkBarState 800 600) 2 [⟨"A", [10, 5]⟩, ⟨"B", [0, 0]⟩]).2 =
      .ok [SvgElem.header 800 600,
           SvgElem.rect (.fin 30) (.fin 180) (.fin 240) (.fin 360) (get_categorical_color 0),
           SvgElem.rect (.fin 30) (.fin 0) (.fin 240) (.fin 180) (get_categorical_color 1),
           SvgElem.text (.fin 150) (.fin 560) "middle" "A",
           SvgElem.text (.fin 450) (.fin 560) "middle" "B"] ∧
    NpQ.add (.fin 360) (.fin 180) = .fin (mkBarState 800 600).chart_height := by
  refine ⟨rfl, rfl, rfl⟩

/-- C7: whenever the summed total is positive, the wedge sweep angles of
the doughnut output sum to exactly 2 pi (their coefficients of pi sum to
exactly 2), hence within the 1e-9 tolerance, for every category order. -/
theorem claim_C7_doughnut_angle_sum :
    ∀ (w h : ℚ) (rows : List DoughnutRow), 0 < doughnutTotal rows →
      ((wedgeAngleCoeffs (doughnutGenerate w h rows)).map NpQ.toQ).sum = 2 ∧
      |((((wedgeAngleCoeffs (doughnutGenerate w h rows)).map NpQ.toQ).sum : ℚ) : ℝ) *
          Real.pi - 2 * Real.pi| ≤ 1 / 10 ^ 9 := by
  intro w h rows hpos
  have htot : doughnutTotal rows ≠ 0 := ne_of_gt hpos
  have htot' : ((doughnutGrouped rows).map (fun g => g.2)).sum ≠ 0 := htot
  have hsum : ((wedgeAngleCoeffs (doughnutGenerate w h rows)).map NpQ.toQ).sum = 2 := by
    simp only [doughnutGenerate]
    rw [wedgeAngleCoeffs_append, wedgeAngleCoeffs_cons_header,
      wedgeAngleCoeffs_doughnutArcs, wedgeAngleCoeffs_footer, List.append_nil,
      List.map_map]
    have hfun : (NpQ.toQ ∘ fun g : String × ℚ =>
        NpQ.mul (NpQ.div (.fin g.2) (.fin ((doughnutGrouped rows).map (fun g => g.2)).sum))
          (.fin 2)) = fun g : String × ℚ =>
        g.2 / ((doughnutGrouped rows).map (fun g => g.2)).sum * 2 := by
      funext g
      simp [NpQ.div, NpQ.mul, NpQ.toQ, htot', Function.comp]
    rw [hfun, sum_map_div_mul, div_self htot', one_mul]
  refine ⟨hsum, ?_⟩
  rw [hsum]
  push_cast
  simp

/-- Witness for C7 on a concrete two-category dataset. -/
theorem claim_C7_doughnut_angle_sum_witness :
    ((wedgeAngleCoeffs (doughnutGenerate 800 600 [⟨"A", 1⟩, ⟨"B", 3⟩])).map NpQ.toQ).sum = 2 ∧
    |((((wedgeAngleCoeffs (doughnutGenerate 800 600 [⟨"A", 1⟩, ⟨"B", 3⟩])).map
        NpQ.toQ).sum : ℚ) : ℝ) * Real.pi - 2 * Real.pi| ≤ 1 / 10 ^ 9 :=
  claim_C7_doughnut_angle_sum 800 600 [⟨"A", 1⟩, ⟨"B", 3⟩] (of_decide_eq_true rfl)

/-- C9: BarChart.generate restores chart_width before every normal
return, and never assigns width, height or chart_height, so on any call
that returns the geometry fields are unchanged (on the
empty-category-list ZeroDivisionError path, which does not return, the
narrowed chart_width is left behind and the other fields still hold). -/
theorem claim_C9_bar_state_frame :
    ∀ (s : BarState) (n : ℕ) (rows : List BarRow),
      (exOk (barGenerate s n rows).2 = true → (barGenerate s n rows).1 = s) ∧
      (barGenerate s n rows).1.width = s.width ∧
      (barGenerate s n rows).1.height = s.height ∧
      (barGenerate s n rows).1.chart_height = s.chart_height := by
  intro s n rows
  simp only [barGenerate]
  split
  · exact ⟨fun hok => by simp [exOk] at hok, rfl, rfl, rfl⟩
  · exact ⟨fun _ => rfl, rfl, rfl, rfl⟩

/-- Witness for C9 on a concrete call that returns normally. -/
theorem claim_C9_bar_state_frame_witness :
    (barGenerate (mkBarState 800 600) 1 [⟨"A", [1]⟩]).1 = mkBarState 800 600 ∧
    (barGenerate (mkBarState 800 600) 1 [⟨"A", [1]⟩]).1.width =
      (mkBarState 800 600).width :=
  ⟨(claim_C9_bar_state_frame (mkBarState 800 600) 1 [⟨"A", [1]⟩]).1 rfl,
   (claim_C9_bar_state_frame (mkBarState 800 600) 1 [⟨"A", [1]⟩]).2.1⟩

theorem exMapM_ok_length (f : α → Except ε β) :
    ∀ (l : List α) (l' : List β), exMapM f l = .ok l' → l'.length = l.length := by
  intro l
  induction l with
  | nil =>
    intro l' h
    unfold exMapM at h
    injection h with h'
    subst h'
    rfl
  | cons a as ih =>
    intro l' h
    unfold exMapM at h
    split at h
    · exact absurd h (by simp)
    · split at h
      · exact absurd h (by simp)
      · rename_i b _ bs hrec
        injection h with h'
        subst h'
        simp [ih bs hrec]

theorem exMapM_cons_error (f : α → Except ε β) (a : α) (l : List α) (e : ε)
    (hfa : f a = .error e) : exMapM f (a :: l) = .error e := by
  unfold exMapM
  rw [hfa]

theorem exMapM_isOk (f : α → Except ε β) :
    ∀ l : List α, (∀ a ∈ l, exOk (f a) = true) → exOk (exMapM f l) = true := by
  intro l
  induction l with
  | nil => intro _; rfl
  | cons a as ih =>
    intro hall
    unfold exMapM
    split
    · rename_i e hfa
      have ha := hall a (by simp)
      rw [hfa] at ha
      simp [exOk] at ha
    · split
      · rename_i hrec
        have := ih (fun x hx => hall x (by simp [hx]))
        rw [hrec] at this
        simp [exOk] at this
      · rfl

theorem insertByTime_length (r : LineRow) (l : List LineRow) :
    (insertByTime r l).length = l.length + 1 := by
  induction l with
  | nil => rfl
  | cons x xs ih =>
    unfold insertByTime
    split
    · rfl
    · simp [ih]

theorem sortByTime_length (l : List LineRow) : (sortByTime l).length = l.length := by
  induction l with
  | nil => rfl
  | cons r rs ih => simp [sortByTime, insertByTime_length, ih]

theorem polylineSizes_append (l1 l2 : List SvgElem) :
    polylineSizes (l1 ++ l2) = polylineSizes l1 ++ polylineSizes l2 := by
  simp [polylineSizes]

theorem polylineSizes_cons_header (w h : ℚ) (l : List SvgElem) :
    polylineSizes (SvgElem.header w h :: l) = polylineSizes l := rfl

theorem polylineSizes_footer : polylineSizes [SvgElem.footer] = [] := rfl

theorem polylineSizes_singleton (pts : List (NpQ × NpQ)) (c : String) :
    polylineSizes [SvgElem.polyline pts c] = [pts.length] := rfl

theorem polylineSizes_two_lines (a b c d a2 b2 c2 d2 : NpQ) (s1 s2 : String) :
    polylineSizes [SvgElem.line a b c d s1, SvgElem.line a2 b2 c2 d2 s2] = [] := rfl

theorem polylineSizes_lineYLabels (cw ch : ℚ) (mv vr : NpQ) (l : List ℕ) :
    polylineSizes ((l.map (lineYLabel cw ch mv vr)).flatten) = [] := by
  induction l with
  | nil => rfl
  | cons i is ih =>
    simp only [List.map_cons, List.flatten_cons, polylineSizes_append, ih]
    by_cases h : 0 < i ∧ i < 4 <;> simp [lineYLabel, polylineSizes, h]

theorem polylineSizes_linePolys (cw ch : ℚ) (minT timeRange minV valueRange : NpQ) :
    ∀ (gs : List (String × List LineRow)) (i : ℕ) (polys : List (List SvgElem)),
      exMapM (linePolyParts cw ch minT timeRange minV valueRange) (pyEnum i gs) =
        .ok polys →
      polylineSizes polys.flatten =
        (gs.map (fun g => g.2.length)).filter (fun n => decide (1 < n)) := by
  intro gs
  induction gs with
  | nil =>
    intro i polys h
    unfold pyEnum exMapM at h
    injection h with h'
    subst h'
    rfl
  | cons g gs ih =>
    intro i polys h
    rw [show pyEnum i (g :: gs) = (i, g) :: pyEnum (i + 1) gs from rfl] at h
    unfold exMapM at h
    split at h
    · exact absurd h (by simp)
    · rename_i parts hparts
      split at h
      · exact absurd h (by simp)
      · rename_i polys' hrec
        injection h with h'
        subst h'
        unfold linePolyParts at hparts
        split at hparts
        · exact absurd hparts (by simp)
        · rename_i pts hpts
          injection hparts with hp
          subst hp
          have hlen : pts.length = g.2.length := by
            rw [exMapM_ok_length _ _ _ hpts, sortByTime_length]
          rw [List.flatten_cons, polylineSizes_append, ih _ _ hrec, List.map_cons,
            List.filter_cons]
          by_cases h1 : 1 < g.2.length
          · rw [if_pos (by rw [hlen]; exact h1), if_pos (by simpa using h1)]
            rw [polylineSizes_singleton, hlen]
            rfl
          · rw [if_neg (by rw [hlen]; exact h1), if_neg (by simpa using h1)]
            rfl

/-- C6: whenever LineChart.generate returns, its polyline elements are in
bijection with the groups of at least 2 rows: a 1-row group contributes no
polyline, and each group with 2 or more rows contributes exactly one
polyline whose point count is the group's row count. -/
theorem claim_C6_line_group_polylines :
    ∀ (w h : ℚ) (rows : List LineRow), exOk (lineGenerate w h rows) = true →
      Except.map polylineSizes (lineGenerate w h rows) =
        .ok (((groupBy LineRow.id rows).map (fun g => g.2.length)).filter
          (fun n => decide (1 < n))) := by
  intro w h rows hok
  simp only [lineGenerate] at hok ⊢
  cases hrec : exMapM
      (linePolyParts (w - 80) (h - 60) (listMinQ (rows.map LineRow.time))
        (lineTimeRange rows) (listMinQ (rows.map LineRow.value))
        (NpQ.sub (listMaxQ (rows.map LineRow.value)) (listMinQ (rows.map LineRow.value))))
      (pyEnum 0 (groupBy LineRow.id rows)) with
  | error e =>
    rw [hrec] at hok
    simp [exOk] at hok
  | ok polys =>
    dsimp only
    simp only [Except.map]
    rw [polylineSizes_append, polylineSizes_append, polylineSizes_append,
      polylineSizes_cons_header, polylineSizes_two_lines, polylineSizes_footer,
      polylineSizes_lineYLabels,
      polylineSizes_linePolys _ _ _ _ _ _ _ _ _ hrec]
    simp

/-- Witness for C6 on a dataset with a 1-row group and a 2-row group. -/
theorem claim_C6_line_group_polylines_witness :
    Except.map polylineSizes
        (lineGenerate 800 600 [⟨"a", 0, 1⟩, ⟨"a", 10, 2⟩, ⟨"b", 5, 3⟩]) =
      .ok (((groupBy LineRow.id [⟨"a", 0, 1⟩, ⟨"a", 10, 2⟩, ⟨"b", 5, 3⟩]).map
          (fun g => g.2.length)).filter (fun n => decide (1 < n))) :=
  claim_C6_line_group_polylines 800 600 [⟨"a", 0, 1⟩, ⟨"a", 10, 2⟩, ⟨"b", 5, 3⟩] rfl

theorem foldl_min_const (t : ℚ) :
    ∀ l : List ℚ, (∀ x ∈ l, x = t) → l.foldl min t = t := by
  intro l
  induction l with
  | nil => intro _; rfl
  | cons x xs ih =>
    intro hall
    have hx : x = t := hall x (by simp)
    subst hx
    rw [List.foldl_cons, min_self]
    exact ih (fun y hy => hall y (by simp [hy]))

theorem foldl_max_const (t : ℚ) :
    ∀ l : List ℚ, (∀ x ∈ l, x = t) → l.foldl max t = t := by
  intro l
  induction l with
  | nil => intro _; rfl
  | cons x xs ih =>
    intro hall
    have hx : x = t := hall x (by simp)
    subst hx
    rw [List.foldl_cons, max_self]
    exact ih (fun y hy => hall y (by simp [hy]))

theorem listMinQ_const (t : ℚ) (l : List ℚ) (hne : l ≠ []) (hall : ∀ x ∈ l, x = t) :
    listMinQ l = .fin t := by
  cases l with
  | nil => exact absurd rfl hne
  | cons x xs =>
    have hx : x = t := hall x (by simp)
    subst hx
    show NpQ.fin (xs.foldl min x) = NpQ.fin x
    rw [foldl_min_const x xs (fun y hy => hall y (by simp [hy]))]

theorem listMaxQ_const (t : ℚ) (l : List ℚ) (hne : l ≠ []) (hall : ∀ x ∈ l, x = t) :
    listMaxQ l = .fin t := by
  cases l with
  | nil => exact absurd rfl hne
  | cons x xs =>
    have hx : x = t := hall x (by simp)
    subst hx
    show NpQ.fin (xs.foldl max x) = NpQ.fin x
    rw [foldl_max_const x xs (fun y hy => hall y (by simp [hy]))]

theorem npq_sub_fin_self (q : ℚ) : NpQ.sub (.fin q) (.fin q) = .fin 0 := by
  simp [NpQ.sub, NpQ.add, NpQ.neg]

theorem groupBy_head (key : ρ → String) {rows : List ρ} (h : rows ≠ []) :
    ∃ k g gs, groupBy key rows = (k, g) :: gs ∧ g ≠ [] := by
  cases hgb : groupBy key rows with
  | nil => exact absurd hgb (groupBy_ne_nil key h)
  | cons g0 gs =>
    refine ⟨g0.1, g0.2, gs, ?_, ?_⟩
    · rfl
    · exact groupBy_groups_ne_nil key rows g0 (by rw [hgb]; simp)

theorem lineTimeRange_const (rows : List LineRow) (t : ℚ) (hne : rows ≠ [])
    (hall : ∀ r ∈ rows, r.time = t) : lineTimeRange rows = .fin 0 := by
  unfold lineTimeRange
  have hne' : rows.map LineRow.time ≠ [] := by
    simpa [List.map_eq_nil_iff] using hne
  have hall' : ∀ x ∈ rows.map LineRow.time, x = t := by
    intro x hx
    rcases List.mem_map.1 hx with ⟨r, hr, rfl⟩
    exact hall r hr
  rw [listMinQ_const t _ hne' hall', listMaxQ_const t _ hne' hall', npq_sub_fin_self]

theorem linePoint_zero_range (cw ch : ℚ) (minT minV valueRange : NpQ) (r : LineRow) :
    linePoint cw ch minT (.fin 0) minV valueRange r = .error .zeroDivisionError := rfl

theorem linePoint_ok (cw ch : ℚ) (minT timeRange minV valueRange : NpQ) (r : LineRow)
    (h : timeRange ≠ .fin 0) :
    exOk (linePoint cw ch minT timeRange minV valueRange r) = true := by
  unfold linePoint
  have : pyDiv (NpQ.sub (.fin r.time) minT) timeRange =
      .ok (NpQ.div (NpQ.sub (.fin r.time) minT) timeRange) := by
    unfold pyDiv
    rw [if_neg h]
  rw [this]
  rfl

theorem linePolyParts_ok (cw ch : ℚ) (minT timeRange minV valueRange : NpQ)
    (ig : ℕ × String × List LineRow) (h : timeRange ≠ .fin 0) :
    exOk (linePolyParts cw ch minT timeRange minV valueRange ig) = true := by
  unfold linePolyParts
  have hpts : exOk (exMapM (linePoint cw ch minT timeRange minV valueRange)
      (sortByTime ig.2.2)) = true :=
    exMapM_isOk _ _ (fun r _ => linePoint_ok cw ch minT timeRange minV valueRange r h)
  cases hm : exMapM (linePoint cw ch minT timeRange minV valueRange)
      (sortByTime ig.2.2) with
  | error e =>
    rw [hm] at hpts
    simp [exOk] at hpts
  | ok pts => rfl

/-- C2 counterexample: a LineChart input whose two rows carry the same
timestamp raises ZeroDivisionError, and a Hexbin input whose independent
column has zero range raises ValueError (Python int() of nan): generate()
throws on these well-formed-but-degenerate inputs instead of returning an
SVG string. -/
theorem claim_C2_counterexample :
    lineGenerate 800 600 [⟨"a", 0, 1⟩, ⟨"a", 0, 2⟩] = .error .zeroDivisionError ∧
    hexbinGenerate 800 600 [⟨"a", 1, 1⟩, ⟨"b", 1, 2⟩] = .error .valueError :=
  ⟨rfl, rfl⟩

theorem foldl_min_le :
    ∀ (xs : List ℚ) (x y : ℚ), y ∈ x :: xs → xs.foldl min x ≤ y := by
  intro xs
  induction xs with
  | nil =>
    intro x y hy
    have h : y = x := by simpa using hy
    simp [h]
  | cons z zs ih =>
    intro x y hy
    rw [List.foldl_cons]
    rcases List.mem_cons.1 hy with h | h
    · rw [h]
      exact le_trans (ih (min x z) (min x z) (by simp)) (min_le_left x z)
    · rcases List.mem_cons.1 h with h2 | h2
      · rw [h2]
        exact le_trans (ih (min x z) (min x z) (by simp)) (min_le_right x z)
      · exact ih (min x z) y (List.mem_cons.2 (Or.inr h2))

theorem le_foldl_max :
    ∀ (xs : List ℚ) (x y : ℚ), y ∈ x :: xs → y ≤ xs.foldl max x := by
  intro xs
  induction xs with
  | nil =>
    intro x y hy
    have h : y = x := by simpa using hy
    simp [h]
  | cons z zs ih =>
    intro x y hy
    rw [List.foldl_cons]
    rcases List.mem_cons.1 hy with h | h
    · rw [h]
      exact le_trans (le_max_left x z) (ih (max x z) (max x z) (by simp))
    · rcases List.mem_cons.1 h with h2 | h2
      · rw [h2]
        exact le_trans (le_max_right x z) (ih (max x z) (max x z) (by simp))
      · exact ih (max x z) y (List.mem_cons.2 (Or.inr h2))

theorem allEq_of_range_zero (x : ℚ) (xs : List ℚ)
    (h : NpQ.sub (listMaxQ (x :: xs)) (listMinQ (x :: xs)) = .fin 0) :
    ∀ y ∈ x :: xs, y = x := by
  have h2 : NpQ.fin (xs.foldl max x + -(xs.foldl min x)) = NpQ.fin 0 := h
  have h3 : xs.foldl max x + -(xs.foldl min x) = 0 := by
    injection h2 with h4
  intro y hy
  have hy1 := foldl_min_le xs x y hy
  have hy2 := le_foldl_max xs x y hy
  have hx1 := foldl_min_le xs x x (by simp)
  have hx2 := le_foldl_max xs x x (by simp)
  linarith

theorem hexCellOf_dep_zero_range (xm xr : ℚ) (hxr : xr ≠ 0) (c : ℚ)
    (hc hrows : ℤ) (p : ℚ × ℚ) (hp : p.2 = c) :
    hexCellOf (.fin xm) (.fin xr) (.fin c) (.fin 0) hc hrows p = .error .valueError := by
  have hx : NpQ.div (NpQ.sub (.fin p.1) (.fin xm)) (.fin xr) =
      .fin ((p.1 + -xm) / xr) := by
    show NpQ.div (.fin (p.1 + -xm)) (.fin xr) = .fin ((p.1 + -xm) / xr)
    simp [NpQ.div, hxr]
  unfold hexCellOf
  rw [hp, npq_sub_fin_self, hx]
  rfl

theorem hexbin_indep_const_error (w h : ℚ) (rows : List HexRow) (c : ℚ)
    (hne : rows ≠ []) (hall : ∀ r ∈ rows, r.independent = c) :
    hexbinGenerate w h rows = .error .valueError := by
  cases rows with
  | nil => exact absurd rfl hne
  | cons r rest =>
    have hr : r.independent = c := hall r (by simp)
    have hconst : ∀ x ∈ ((r :: rest).map
        (fun r => (r.independent, r.dependent))).map (fun p => p.1), x = c := by
      intro x hx
      rcases List.mem_map.1 hx with ⟨p, hp, rfl⟩
      rcases List.mem_map.1 hp with ⟨r', hr', rfl⟩
      exact hall r' hr'
    have hne' : ((r :: rest).map
        (fun r => (r.independent, r.dependent))).map (fun p => p.1) ≠ [] := by
      simp
    have hmin : listMinQ (((r :: rest).map
        (fun r => (r.independent, r.dependent))).map (fun p => p.1)) = .fin c :=
      listMinQ_const c _ hne' hconst
    have hmax : listMaxQ (((r :: rest).map
        (fun r => (r.independent, r.dependent))).map (fun p => p.1)) = .fin c :=
      listMaxQ_const c _ hne' hconst
    simp only [hexbinGenerate, hexbinCore]
    rw [hmin, hmax, npq_sub_fin_self]
    have hcell : ∀ (ymin yrange : NpQ) (hc hrows : ℤ),
        hexCellOf (.fin c) (.fin 0) ymin yrange hc hrows
          (r.independent, r.dependent) = .error .valueError := by
      intro ymin yr hc hrows
      unfold hexCellOf
      simp only [hr, npq_sub_fin_self]
      rfl
    rw [show (r :: rest).map (fun r => (r.independent, r.dependent)) =
        (r.independent, r.dependent) ::
          rest.map (fun r => (r.independent, r.dependent)) from rfl,
      exMapM_cons_error _ _ _ _ (hcell _ _ _ _)]

/-- C2 amended: LineChart.generate raises ZeroDivisionError on every
nonempty input whose time values are all equal; it returns normally
whenever the time range is nonzero — in particular a zero value range
only produces nan coordinates (numpy division), not an exception; and
HexbinChart.generate raises ValueError on every nonempty input whose
independent column has zero range, and likewise on every nonempty input
whose dependent column has zero range (int() applied to the nan produced
by 0/0, on the col or the row coordinate respectively). -/
theorem claim_C2_degenerate_ranges :
    (∀ (w h : ℚ) (rows : List LineRow) (t : ℚ), rows ≠ [] →
      (∀ r ∈ rows, r.time = t) →
      lineGenerate w h rows = .error .zeroDivisionError) ∧
    (∀ (w h : ℚ) (rows : List LineRow),
      lineTimeRange rows ≠ .fin 0 → exOk (lineGenerate w h rows) = true) ∧
    (∀ (w h : ℚ) (rows : List HexRow) (c : ℚ), rows ≠ [] →
      (∀ r ∈ rows, r.independent = c) →
      hexbinGenerate w h rows = .error .valueError) ∧
    (∀ (w h : ℚ) (rows : List HexRow) (c : ℚ), rows ≠ [] →
      (∀ r ∈ rows, r.dependent = c) →
      hexbinGenerate w h rows = .error .valueError) := by
  refine ⟨?_, ?_, ?_, ?_⟩
  · intro w h rows t hne hall
    obtain ⟨k, g, gs, hgb, hg⟩ := groupBy_head LineRow.id hne
    have htr : lineTimeRange rows = .fin 0 := lineTimeRange_const rows t hne hall
    simp only [lineGenerate, hgb, htr]
    obtain ⟨p, ps, hsort⟩ : ∃ p ps, sortByTime g = p :: ps := by
      cases hs : sortByTime g with
      | nil =>
        exfalso
        have := sortByTime_length g
        rw [hs] at this
        exact hg (List.length_eq_zero.1 this.symm)
      | cons p ps => exact ⟨p, ps, rfl⟩
    have hfail : linePolyParts (w - 80) (h - 60) (listMinQ (rows.map LineRow.time))
        (.fin 0) (listMinQ (rows.map LineRow.value))
        (NpQ.sub (listMaxQ (rows.map LineRow.value)) (listMinQ (rows.map LineRow.value)))
        (0, (k, g)) = .error .zeroDivisionError := by
      unfold linePolyParts
      rw [show (0, (k, g)).2.2 = g from rfl, hsort,
        exMapM_cons_error _ _ _ _ (linePoint_zero_range _ _ _ _ _ p)]
    rw [show pyEnum 0 ((k, g) :: gs) = (0, (k, g)) :: pyEnum 1 gs from rfl,
      exMapM_cons_error _ _ _ _ hfail]
  · intro w h rows htr
    simp only [lineGenerate]
    have hall : exOk (exMapM
        (linePolyParts (w - 80) (h - 60) (listMinQ (rows.map LineRow.time))
          (lineTimeRange rows) (listMinQ (rows.map LineRow.value))
          (NpQ.sub (listMaxQ (rows.map LineRow.value)) (listMinQ (rows.map LineRow.value))))
        (pyEnum 0 (groupBy LineRow.id rows))) = true :=
      exMapM_isOk _ _ (fun ig _ => linePolyParts_ok _ _ _ _ _ _ ig htr)
    cases hm : exMapM
        (linePolyParts (w - 80) (h - 60) (listMinQ (rows.map LineRow.time))
          (lineTimeRange rows) (listMinQ (rows.map LineRow.value))
          (NpQ.sub (listMaxQ (rows.map LineRow.value)) (listMinQ (rows.map LineRow.value))))
        (pyEnum 0 (groupBy LineRow.id rows)) with
    | error e =>
      rw [hm] at hall
      simp [exOk] at hall
    | ok polys => rfl
  · intro w h rows c hne hall
    exact hexbin_indep_const_error w h rows c hne hall
  · intro w h rows c hne hall
    cases rows with
    | nil => exact absurd rfl hne
    | cons r rest =>
      by_cases hxall : ∀ r' ∈ r :: rest, r'.independent = r.independent
      · exact hexbin_indep_const_error w h (r :: rest) r.independent (by simp) hxall
      · have hconst : ∀ x ∈ ((r :: rest).map
            (fun r => (r.independent, r.dependent))).map (fun p => p.2), x = c := by
          intro x hx
          rcases List.mem_map.1 hx with ⟨p, hp, rfl⟩
          rcases List.mem_map.1 hp with ⟨r', hr', rfl⟩
          exact hall r' hr'
        have hne' : ((r :: rest).map
            (fun r => (r.independent, r.dependent))).map (fun p => p.2) ≠ [] := by
          simp
        have hminy : listMinQ (((r :: rest).map
            (fun r => (r.independent, r.dependent))).map (fun p => p.2)) = .fin c :=
          listMinQ_const c _ hne' hconst
        have hmaxy : listMaxQ (((r :: rest).map
            (fun r => (r.independent, r.dependent))).map (fun p => p.2)) = .fin c :=
          listMaxQ_const c _ hne' hconst
        have hxrq : ((rest.map (fun r => (r.independent, r.dependent))).map
              (fun p => p.1)).foldl max r.independent +
            -(((rest.map (fun r => (r.independent, r.dependent))).map
              (fun p => p.1)).foldl min r.independent) ≠ 0 := by
          intro h0
          apply hxall
          intro r' hr'
          have hmem : r'.independent ∈ r.independent ::
              (rest.map (fun r => (r.independent, r.dependent))).map (fun p => p.1) := by
            rcases List.mem_cons.1 hr' with h' | h'
            · subst h'
              exact List.mem_cons.2 (Or.inl rfl)
            · exact List.mem_cons.2 (Or.inr (List.mem_map.2
                ⟨(r'.independent, r'.dependent), List.mem_map.2 ⟨r', h', rfl⟩, rfl⟩))
          have hsub : NpQ.sub
              (listMaxQ (r.independent :: (rest.map
                (fun r => (r.independent, r.dependent))).map (fun p => p.1)))
              (listMinQ (r.independent :: (rest.map
                (fun r => (r.independent, r.dependent))).map (fun p => p.1))) = .fin 0 := by
            show NpQ.fin (((rest.map (fun r => (r.independent, r.dependent))).map
                (fun p => p.1)).foldl max r.independent +
              -(((rest.map (fun r => (r.independent, r.dependent))).map
                (fun p => p.1)).foldl min r.independent)) = NpQ.fin 0
            rw [h0]
          exact allEq_of_range_zero r.independent
            ((rest.map (fun r => (r.independent, r.dependent))).map (fun p => p.1))
            hsub r'.independent hmem
        simp only [hexbinGenerate, hexbinCore]
        rw [hminy, hmaxy, npq_sub_fin_self]
        rw [show (r :: rest).map (fun r => (r.independent, r.dependent)) =
            (r.independent, r.dependent) ::
              rest.map (fun r => (r.independent, r.dependent)) from rfl]
        have hfa : hexCellOf
            (listMinQ (((r.independent, r.dependent) ::
              rest.map (fun r => (r.independent, r.dependent))).map (fun p => p.1)))
            (NpQ.sub
              (listMaxQ (((r.independent, r.dependent) ::
                rest.map (fun r => (r.independent, r.dependent))).map (fun p => p.1)))
              (listMinQ (((r.independent, r.dependent) ::
                rest.map (fun r => (r.independent, r.dependent))).map (fun p => p.1))))
            (.fin c) (.fin 0)
            (ratTrunc ((w - 80) / (20 * (3 / 2))) + 1)
            (truncMulSqrt3 ((h - 60) / (20 * 3)) + 1)
            (r.independent, r.dependent) = .error .valueError :=
          hexCellOf_dep_zero_range _ _ hxrq c _ _
            (r.independent, r.dependent) (hall r (by simp))
        rw [exMapM_cons_error _ _ _ _ hfa]

/-- Witness for the amended C2 at concrete degenerate inputs. -/
theorem claim_C2_degenerate_ranges_witness :
    lineGenerate 800 600 [⟨"a", 5, 1⟩, ⟨"b", 5, 2⟩] = .error .zeroDivisionError ∧
    exOk (lineGenerate 800 600 [⟨"a", 0, 7⟩, ⟨"a", 10, 7⟩]) = true ∧
    hexbinGenerate 800 600 [⟨"a", 3, 1⟩, ⟨"a", 3, 2⟩] = .error .valueError ∧
    hexbinGenerate 800 600 [⟨"a", 1, 5⟩, ⟨"b", 2, 5⟩] = .error .valueError :=
  ⟨claim_C2_degenerate_ranges.1 800 600 [⟨"a", 5, 1⟩, ⟨"b", 5, 2⟩] 5
      (by decide) (by decide),
   claim_C2_degenerate_ranges.2.1 800 600 [⟨"a", 0, 7⟩, ⟨"a", 10, 7⟩]
      (by decide),
   claim_C2_degenerate_ranges.2.2.1 800 600 [⟨"a", 3, 1⟩, ⟨"a", 3, 2⟩] 3
      (by decide) (by decide),
   claim_C2_degenerate_ranges.2.2.2 800 600 [⟨"a", 1, 5⟩, ⟨"b", 2, 5⟩] 5
      (by decide) (by decide)⟩

theorem intervalIndex_map_range (v : ℚ) :
    ∀ (cnt : ℕ) (f : ℕ → ℚ) (head : ℚ) (j : ℕ),
      (∀ i1 i2, i1 < i2 → f i1 < f i2) →
      (∀ i, head < f i) →
      j + 1 ≤ cnt →
      (if j = 0 then head else f (j - 1)) < v →
      v ≤ f j →
      intervalIndex v (head :: (List.range cnt).map f) = some j := by
  intro cnt
  induction cnt with
  | zero =>
    intro f head j _ _ hj _ _
    exact absurd hj (by omega)
  | succ cnt ih =>
    intro f head j hmono hhead hj hlo hhi
    rw [List.range_succ_eq_map, List.map_cons, List.map_map]
    cases j with
    | zero =>
      unfold intervalIndex
      rw [if_pos ⟨by simpa using hlo, hhi⟩]
    | succ j' =>
      have hf0 : f 0 < v := by
        cases Nat.eq_zero_or_pos j' with
        | inl h0 =>
          subst h0
          simpa using hlo
        | inr hpos =>
          refine lt_trans (hmono 0 j' hpos) ?_
          simpa [Nat.succ_sub_one] using hlo
      unfold intervalIndex
      rw [if_neg (fun hcon => absurd hcon.2 (not_le.2 hf0))]
      rw [ih (f ∘ Nat.succ) (f 0) j'
        (fun i1 i2 h12 => hmono (i1 + 1) (i2 + 1) (by omega))
        (fun i => hmono 0 (i + 1) (Nat.succ_pos i))
        (Nat.le_of_succ_le_succ hj) ?_ ?_]
      · rfl
      · cases Nat.eq_zero_or_pos j' with
        | inl h0 =>
          subst h0
          simpa using hf0
        | inr hpos =>
          rw [if_neg (by omega), show (f ∘ Nat.succ) (j' - 1) = f j' from by
            simp only [Function.comp_apply]
            congr 1
            omega]
          simpa [Nat.succ_sub_one] using hlo
      · simpa [Function.comp_apply] using hhi

theorem linEdges_split (mn mx : ℚ) (n : ℕ) :
    linEdges mn mx n =
      mn :: (List.range n).map (fun i : ℕ => mn + ((i : ℚ) + 1) * (mx - mn) / (n : ℚ)) := by
  unfold linEdges
  rw [List.range_succ_eq_map, List.map_cons, List.map_map]
  congr 1
  · simp
  · apply List.map_congr_left
    intro i _
    simp only [Function.comp_apply]
    push_cast
    ring

theorem pdCutEdges_eq (mn mx : ℚ) (n : ℕ) (hne : ¬ mn = mx) :
    pdCutEdges mn mx n =
      (mn - (mx - mn) / 1000) ::
        (List.range n).map (fun i : ℕ => mn + ((i : ℚ) + 1) * (mx - mn) / (n : ℚ)) := by
  unfold pdCutEdges
  rw [if_neg hne, linEdges_split]

theorem pdCutEdges_mono (mn mx : ℚ) (n : ℕ) (hlt : mn < mx) (hn : 0 < n) :
    ∀ i1 i2 : ℕ, i1 < i2 →
      mn + ((i1 : ℚ) + 1) * (mx - mn) / (n : ℚ) <
        mn + ((i2 : ℚ) + 1) * (mx - mn) / (n : ℚ) := by
  intro i1 i2 h12
  have hnq : (0 : ℚ) < (n : ℚ) := by exact_mod_cast hn
  have hw : (0 : ℚ) < (mx - mn) / (n : ℚ) := div_pos (by linarith) hnq
  have h12q : (i1 : ℚ) < (i2 : ℚ) := by exact_mod_cast h12
  have hmul : ((i1 : ℚ) + 1) * ((mx - mn) / (n : ℚ)) <
      ((i2 : ℚ) + 1) * ((mx - mn) / (n : ℚ)) :=
    mul_lt_mul_of_pos_right (by linarith) hw
  have e1 : ((i1 : ℚ) + 1) * (mx - mn) / (n : ℚ) =
      ((i1 : ℚ) + 1) * ((mx - mn) / (n : ℚ)) := by ring
  have e2 : ((i2 : ℚ) + 1) * (mx - mn) / (n : ℚ) =
      ((i2 : ℚ) + 1) * ((mx - mn) / (n : ℚ)) := by ring
  rw [e1, e2]
  linarith

theorem pdCutEdges_head_lt (mn mx : ℚ) (n : ℕ) (hlt : mn < mx) (hn : 0 < n) :
    ∀ i : ℕ, mn - (mx - mn) / 1000 < mn + ((i : ℚ) + 1) * (mx - mn) / (n : ℚ) := by
  intro i
  have hnq : (0 : ℚ) < (n : ℚ) := by exact_mod_cast hn
  have hw : (0 : ℚ) < (mx - mn) / (n : ℚ) := div_pos (by linarith) hnq
  have hadj : (0 : ℚ) < (mx - mn) / 1000 := div_pos (by linarith) (by norm_num)
  have hi : (0 : ℚ) ≤ (i : ℚ) := Nat.cast_nonneg i
  have hmul : (0 : ℚ) < ((i : ℚ) + 1) * ((mx - mn) / (n : ℚ)) :=
    mul_pos (by linarith) hw
  have e1 : ((i : ℚ) + 1) * (mx - mn) / (n : ℚ) =
      ((i : ℚ) + 1) * ((mx - mn) / (n : ℚ)) := by ring
  rw [e1]
  linarith

theorem pdCutBinIndex_interior (mn mx : ℚ) (n k : ℕ) (hlt : mn < mx)
    (hk0 : 0 < k) (hkn : k < n) :
    pdCutBinIndex mn mx n (mn + (k : ℚ) * (mx - mn) / (n : ℚ)) = some (k - 1) := by
  obtain ⟨k', rfl⟩ : ∃ k', k = k' + 1 := ⟨k - 1, (Nat.succ_pred_eq_of_pos hk0).symm⟩
  have hn : 0 < n := Nat.lt_trans hk0 hkn
  have hcast : ((k' + 1 : ℕ) : ℚ) = (k' : ℚ) + 1 := by push_cast; ring
  unfold pdCutBinIndex
  rw [pdCutEdges_eq mn mx n (fun he => absurd he (ne_of_lt hlt)), Nat.add_sub_cancel]
  refine intervalIndex_map_range _ n _ _ k'
    (pdCutEdges_mono mn mx n hlt hn) (pdCutEdges_head_lt mn mx n hlt hn)
    (Nat.le_of_lt hkn) ?_ ?_
  · cases Nat.eq_zero_or_pos k' with
    | inl h0 =>
      subst h0
      rw [if_pos rfl, hcast]
      have := pdCutEdges_head_lt mn mx n hlt hn 0
      simpa using this
    | inr hpos =>
      rw [if_neg (by omega), hcast]
      exact pdCutEdges_mono mn mx n hlt hn (k' - 1) k' (by omega)
  · rw [hcast]

theorem pdCutBinIndex_max (mn mx : ℚ) (n : ℕ) (hlt : mn < mx) (hn : 0 < n) :
    pdCutBinIndex mn mx n mx = some (n - 1) := by
  obtain ⟨n', rfl⟩ : ∃ n', n = n' + 1 := ⟨n - 1, (Nat.succ_pred_eq_of_pos hn).symm⟩
  have hid : mn + ((n' : ℚ) + 1) * (mx - mn) / ((n' + 1 : ℕ) : ℚ) = mx := by
    have hc : ((n' + 1 : ℕ) : ℚ) = (n' : ℚ) + 1 := by push_cast; ring
    rw [hc]
    have hne' : (n' : ℚ) + 1 ≠ 0 := by positivity
    field_simp
  unfold pdCutBinIndex
  rw [pdCutEdges_eq _ _ _ (fun he => absurd he (ne_of_lt hlt)), Nat.add_sub_cancel]
  refine intervalIndex_map_range _ (n' + 1) _ _ n'
    (pdCutEdges_mono mn mx (n' + 1) hlt (Nat.succ_pos n'))
    (pdCutEdges_head_lt mn mx (n' + 1) hlt (Nat.succ_pos n'))
    (le_refl _) ?_ ?_
  · cases Nat.eq_zero_or_pos n' with
    | inl h0 =>
      subst h0
      rw [if_pos rfl]
      have hadj : (0 : ℚ) < (mx - mn) / 1000 := div_pos (by linarith) (by norm_num)
      linarith
    | inr hpos =>
      rw [if_neg (by omega)]
      have hmono := pdCutEdges_mono mn mx (n' + 1) hlt (Nat.succ_pos n')
        (n' - 1) n' (by omega)
      rw [hid] at hmono
      exact hmono
  · rw [hid]

/-- C4 counterexample: binning [0, 2] into 2 bins, the value 1 — an
interior bin edge — is counted in bin 0, the bin to the LEFT of the edge,
because pd.cut intervals are left-open and right-closed; the claim's
right-open convention would put it in bin 1. -/
theorem claim_C4_counterexample :
    pdCutBinIndex 0 2 2 1 = some 0 ∧ pdCutBinIndex 0 2 2 1 ≠ some 1 := by
  refine ⟨rfl, ?_⟩
  intro hcon
  rw [show pdCutBinIndex 0 2 2 1 = some 0 from rfl] at hcon
  exact absurd (Option.some.inj hcon) (by decide)

/-- C4 amended: pd.cut partitions [min, max] into n equal-width intervals
that are left-open and right-closed (the first edge is additionally
shifted down by 0.1% of the range so the minimum is included): a value
equal to an interior bin edge is counted in the bin to the LEFT of that
edge, and a value equal to max is counted in the final bin. -/
theorem claim_C4_bin_edge_closure :
    ∀ (mn mx : ℚ) (n k : ℕ), mn < mx → 0 < k → k < n →
      pdCutBinIndex mn mx n (mn + (k : ℚ) * (mx - mn) / (n : ℚ)) = some (k - 1) ∧
      pdCutBinIndex mn mx n mx = some (n - 1) :=
  fun mn mx n k h1 h2 h3 =>
    ⟨pdCutBinIndex_interior mn mx n k h1 h2 h3,
     pdCutBinIndex_max mn mx n h1 (Nat.lt_trans h2 h3)⟩

/-- Witness for the amended C4 with [min, max] = [0, 2] and 2 bins at the
interior edge 1 and at the maximum 2. -/
theorem claim_C4_bin_edge_closure_witness :
    pdCutBinIndex 0 2 2 (0 + (1 : ℚ) * (2 - 0) / (2 : ℚ)) = some 0 ∧
    pdCutBinIndex 0 2 2 2 = some 1 := by
  have h := claim_C4_bin_edge_closure 0 2 2 1 (by norm_num) (by norm_num) (by norm_num)
  simpa using h

end StandardCharts
